import Mathlib

/-!
Verification of the distributed card-duel server against its specification.

The definitions below are a shallow embedding of the Go sources:
`models.go` (data model), the stock service (`atomicOpenPackScript`,
`openCardPackDistributed`, `openCardPack`), `game.go` (`handleGameMove`,
`determineWinner`, `selectRandomCards`), `matchmaker.go`
(`addToMatchmakingQueue`, `distributedMatchmaker`, command routing of
`listenClientCommands` in `websocket.go`), and `trade.go`
(`handleTradeCard`, `performDistributedTrade`, `startLocalGame`).

Store state (Redis lists, sorted sets, hashes, lock keys) is made explicit;
each atomic store operation (Lua script, `ZREM` of several members, `LPOP`,
`HEXISTS`/`HSET`, `SETNX`) is one step of a Lean function.  Randomness
(`rand.Shuffle`) is a permutation parameter, and fallible store calls are
branch parameters, so that every interleaving-dependent read is universally
quantified.
-/

namespace CardDuel

/-- `Card` from `models.go`: a name and a strength (`Forca`, Go `int`). -/
structure Card where
  name : String
  forca : Int
deriving DecidableEq, Repr

/-- The player lifecycle phase, stored in `PlayerState.State` as one of the
strings "Menu", "Searching", "InGame". -/
inductive Phase
  | Menu
  | Searching
  | InGame
deriving DecidableEq, Repr

/-! ## Stock service

The global stock is the Redis list `global_card_stock`.  The Lua script and
the functions around it never look at the payload of a list element, so the
embedding is generic in the element type: instantiating `α` with the JSON
string (what Redis stores) or with the decoded `Card` gives the same
list-level behaviour. -/

/-- `PACK_SIZE`: a pack is exactly 3 cards (`packSize` in
`openCardPackDistributed`, `ARGV[1]` of the script). -/
def PACK_SIZE : Nat := 3

/-- The Lua script `atomicOpenPackScript`, executed atomically by Redis:
`LLEN` the stock; if shorter than the pack size return the empty table and
leave the list alone, otherwise `LPOP` `PACK_SIZE` elements from the head
and return them.  Result: (returned elements, remaining list). -/
def atomicOpenPackScript (stock : List α) : List α × List α :=
  if stock.length < PACK_SIZE then ([], stock)
  else (stock.take PACK_SIZE, stock.drop PACK_SIZE)

/-- `openCardPackDistributed`: runs the script and translates the empty
reply into the insufficient-stock error (`none`). -/
def openCardPackDistributed (stock : List α) : Option (List α) × List α :=
  let res := atomicOpenPackScript stock
  if res.1.isEmpty then (none, res.2) else (some res.1, res.2)

/-- Any number of successive `openCardPackDistributed` calls against the
shared stock (the script is atomic, so concurrent calls serialize into some
order; this function folds that order).  Returns the packs handed out and
the final stock. -/
def issuePackRuns : List α → Nat → List (List α) × List α
  | stock, 0 => ([], stock)
  | stock, Nat.succ n =>
    let res := openCardPackDistributed stock
    let rest := issuePackRuns res.2 n
    (res.1.toList ++ rest.1, rest.2)

theorem openCardPackDistributed_of_le (stock : List α) (h : PACK_SIZE ≤ stock.length) :
    openCardPackDistributed stock = (some (stock.take PACK_SIZE), stock.drop PACK_SIZE) := by
  have hlt : ¬ stock.length < PACK_SIZE := not_lt.mpr h
  have htake : (stock.take PACK_SIZE).length = PACK_SIZE := by
    simp [List.length_take, Nat.min_eq_left h]
  have hne : ¬ (stock.take PACK_SIZE).isEmpty = true := by
    intro hemp
    rw [List.isEmpty_iff_length_eq_zero] at hemp
    rw [htake] at hemp
    exact absurd hemp (by decide)
  simp [openCardPackDistributed, atomicOpenPackScript, hlt, hne]

theorem openCardPackDistributed_of_lt (stock : List α) (h : stock.length < PACK_SIZE) :
    openCardPackDistributed stock = (none, stock) := by
  simp [openCardPackDistributed, atomicOpenPackScript, h]

theorem issuePackRuns_flatten_append (stock : List α) (n : Nat) :
    (issuePackRuns stock n).1.flatten ++ (issuePackRuns stock n).2 = stock := by
  induction n generalizing stock with
  | zero => simp [issuePackRuns]
  | succ n ih =>
    by_cases h : stock.length < PACK_SIZE
    · have := openCardPackDistributed_of_lt stock h
      simp [issuePackRuns, this, ih]
    · have hle : PACK_SIZE ≤ stock.length := not_lt.mp h
      have := openCardPackDistributed_of_le stock hle
      simp only [issuePackRuns, this, Option.toList_some, List.singleton_append,
        List.flatten_cons, List.append_assoc]
      rw [ih]
      exact List.take_append_drop _ _

/-- Claim C1: every call to `issue_pack` (`openCardPackDistributed`) on a
stock of at least `PACK_SIZE` = 3 elements returns exactly the first 3
elements and leaves exactly the rest; on a shorter stock it returns
`Insufficient` (`none`) and leaves the stock unchanged; and over any
sequence of calls the packs concatenate (with the final stock) back to the
initial stock, so that, when the stock elements are distinct, no element is
returned by two different calls: no partial packs, no duplication, no
loss. -/
theorem issue_pack_atomic (stock : List α) (n : Nat) :
    (PACK_SIZE ≤ stock.length →
      openCardPackDistributed stock = (some (stock.take PACK_SIZE), stock.drop PACK_SIZE)) ∧
    (stock.length < PACK_SIZE → openCardPackDistributed stock = (none, stock)) ∧
    ((issuePackRuns stock n).1.flatten ++ (issuePackRuns stock n).2 = stock) ∧
    (stock.Nodup → List.Pairwise List.Disjoint (issuePackRuns stock n).1) := by
  refine ⟨openCardPackDistributed_of_le stock,
    openCardPackDistributed_of_lt stock,
    issuePackRuns_flatten_append stock n, ?_⟩
  intro hnd
  have hflat : ((issuePackRuns stock n).1.flatten ++ (issuePackRuns stock n).2).Nodup := by
    rw [issuePackRuns_flatten_append stock n]; exact hnd
  have h2 : (issuePackRuns stock n).1.flatten.Nodup := hflat.of_append_left
  exact (List.nodup_flatten.mp h2).2

/-- Witness for `issue_pack_atomic` at a concrete 4-element stock and 2
calls: the first call returns the first three elements, a 2-element stock is
refused untouched, two calls on the 4-element stock hand out exactly one
disjoint pack. -/
theorem issue_pack_atomic_witness :
    openCardPackDistributed ["a", "b", "c", "d"] = (some ["a", "b", "c"], ["d"]) ∧
    openCardPackDistributed ["a", "b"] = (none, ["a", "b"]) ∧
    (issuePackRuns ["a", "b", "c", "d"] 2).1.flatten ++ (issuePackRuns ["a", "b", "c", "d"] 2).2
      = ["a", "b", "c", "d"] ∧
    List.Pairwise List.Disjoint (issuePackRuns ["a", "b", "c", "d"] 2).1 := by
  refine ⟨(issue_pack_atomic ["a", "b", "c", "d"] 2).1 (by decide),
    (issue_pack_atomic ["a", "b"] 2).2.1 (by decide),
    (issue_pack_atomic ["a", "b", "c", "d"] 2).2.2.1,
    (issue_pack_atomic ["a", "b", "c", "d"] 2).2.2.2 (by decide)⟩

/-! ## Duel coordinator: winner determination (`game.go`, `determineWinner`)

`determineWinner` runs only on the P1 (owner) server.  Its comparison logic
is a pure function of the two optionally-played cards; the two produced
strings are `resultP1` and `resultP2` of the Go code, built with
`fmt.Sprintf` from the card names, strengths and the opponent names. -/

/-- The pair `(resultP1, resultP2)` computed by `determineWinner` from the
played cards (`session.Player1Card`, `session.Player2Card`). -/
def determineWinnerMsgs (p1Name p2Name : String) (p1Card p2Card : Option Card) :
    String × String :=
  match p1Card, p2Card with
  | some c1, some c2 =>
    if c1.forca > c2.forca then
      ("RESULT|VITÓRIA|Sua carta " ++ c1.name ++ " (" ++ toString c1.forca ++ ") venceu "
         ++ c2.name ++ " (" ++ toString c2.forca ++ ") de " ++ p2Name ++ ".\n",
       "RESULT|DERROTA|Sua carta " ++ c2.name ++ " (" ++ toString c2.forca ++ ") perdeu para "
         ++ c1.name ++ " (" ++ toString c1.forca ++ ") de " ++ p1Name ++ ".\n")
    else if c2.forca > c1.forca then
      ("RESULT|DERROTA|Sua carta " ++ c1.name ++ " (" ++ toString c1.forca ++ ") perdeu para "
         ++ c2.name ++ " (" ++ toString c2.forca ++ ") de " ++ p2Name ++ ".\n",
       "RESULT|VITÓRIA|Sua carta " ++ c2.name ++ " (" ++ toString c2.forca ++ ") venceu "
         ++ c1.name ++ " (" ++ toString c1.forca ++ ") de " ++ p1Name ++ ".\n")
    else
      ("RESULT|EMPATE|Empate! Ambas as cartas têm força " ++ toString c1.forca ++ ".\n",
       "RESULT|EMPATE|Empate! Ambas as cartas têm força " ++ toString c1.forca ++ ".\n")
  | none, some _ =>
    ("RESULT|DERROTA|Você não jogou a tempo e perdeu.\n",
     "RESULT|VITÓRIA|" ++ p1Name ++ " não jogou a tempo. Você venceu!\n")
  | some _, none =>
    ("RESULT|VITÓRIA|" ++ p2Name ++ " não jogou a tempo. Você venceu!\n",
     "RESULT|DERROTA|Você não jogou a tempo e perdeu.\n")
  | none, none =>
    ("RESULT|EMPATE|Nenhum jogador jogou a tempo. Empate.\n",
     "RESULT|EMPATE|Nenhum jogador jogou a tempo. Empate.\n")

/-- Claim C2: duel resolution is a deterministic function of the pair of
played cards (`determineWinnerMsgs` is that function).  With both cards
present, the side with the strictly higher strength receives
`RESULT|VITÓRIA` and the other `RESULT|DERROTA`; equal strengths give both
sides the same `RESULT|EMPATE` message.  With exactly one card present, the
side that played receives `RESULT|VITÓRIA` and the absent side
`RESULT|DERROTA` (timeout loss).  With neither present, both sides receive
the same `RESULT|EMPATE` message. -/
theorem determineWinner_deterministic (p1Name p2Name : String) (c1 c2 : Card) :
    (c1.forca > c2.forca → ∃ t1 t2,
      determineWinnerMsgs p1Name p2Name (some c1) (some c2) =
        ("RESULT|VITÓRIA|" ++ t1, "RESULT|DERROTA|" ++ t2)) ∧
    (c2.forca > c1.forca → ∃ t1 t2,
      determineWinnerMsgs p1Name p2Name (some c1) (some c2) =
        ("RESULT|DERROTA|" ++ t1, "RESULT|VITÓRIA|" ++ t2)) ∧
    (c1.forca = c2.forca → ∃ t,
      determineWinnerMsgs p1Name p2Name (some c1) (some c2) =
        ("RESULT|EMPATE|" ++ t, "RESULT|EMPATE|" ++ t)) ∧
    (∃ t1 t2, determineWinnerMsgs p1Name p2Name (some c1) none =
        ("RESULT|VITÓRIA|" ++ t1, "RESULT|DERROTA|" ++ t2)) ∧
    (∃ t1 t2, determineWinnerMsgs p1Name p2Name none (some c2) =
        ("RESULT|DERROTA|" ++ t1, "RESULT|VITÓRIA|" ++ t2)) ∧
    (∃ t, determineWinnerMsgs p1Name p2Name none none =
        ("RESULT|EMPATE|" ++ t, "RESULT|EMPATE|" ++ t)) := by
  refine ⟨?_, ?_, ?_, ?_, ?_, ?_⟩
  · intro h
    refine ⟨"Sua carta " ++ c1.name ++ " (" ++ toString c1.forca ++ ") venceu "
        ++ c2.name ++ " (" ++ toString c2.forca ++ ") de " ++ p2Name ++ ".\n",
      "Sua carta " ++ c2.name ++ " (" ++ toString c2.forca ++ ") perdeu para "
        ++ c1.name ++ " (" ++ toString c1.forca ++ ") de " ++ p1Name ++ ".\n", ?_⟩
    simp only [determineWinnerMsgs, if_pos h, Prod.mk.injEq]
    constructor
    · simp only [← String.append_assoc]
      rw [show ("RESULT|VITÓRIA|" ++ "Sua carta " : String)
        = "RESULT|VITÓRIA|Sua carta " from rfl]
    · simp only [← String.append_assoc]
      rw [show ("RESULT|DERROTA|" ++ "Sua carta " : String)
        = "RESULT|DERROTA|Sua carta " from rfl]
  · intro h
    have hnot : ¬ c1.forca > c2.forca := not_lt.mpr (le_of_lt h)
    refine ⟨"Sua carta " ++ c1.name ++ " (" ++ toString c1.forca ++ ") perdeu para "
        ++ c2.name ++ " (" ++ toString c2.forca ++ ") de " ++ p2Name ++ ".\n",
      "Sua carta " ++ c2.name ++ " (" ++ toString c2.forca ++ ") venceu "
        ++ c1.name ++ " (" ++ toString c1.forca ++ ") de " ++ p1Name ++ ".\n", ?_⟩
    simp only [determineWinnerMsgs, if_neg hnot, if_pos h, Prod.mk.injEq]
    constructor
    · simp only [← String.append_assoc]
      rw [show ("RESULT|DERROTA|" ++ "Sua carta " : String)
        = "RESULT|DERROTA|Sua carta " from rfl]
    · simp only [← String.append_assoc]
      rw [show ("RESULT|VITÓRIA|" ++ "Sua carta " : String)
        = "RESULT|VITÓRIA|Sua carta " from rfl]
  · intro h
    have h1 : ¬ c1.forca > c2.forca := by omega
    have h2 : ¬ c2.forca > c1.forca := by omega
    refine ⟨"Empate! Ambas as cartas têm força " ++ toString c1.forca ++ ".\n", ?_⟩
    simp only [determineWinnerMsgs, if_neg h1, if_neg h2, Prod.mk.injEq]
    constructor
    · simp only [← String.append_assoc]
      rw [show ("RESULT|EMPATE|" ++ "Empate! Ambas as cartas têm força " : String)
        = "RESULT|EMPATE|Empate! Ambas as cartas têm força " from rfl]
    · simp only [← String.append_assoc]
      rw [show ("RESULT|EMPATE|" ++ "Empate! Ambas as cartas têm força " : String)
        = "RESULT|EMPATE|Empate! Ambas as cartas têm força " from rfl]
  · refine ⟨p2Name ++ " não jogou a tempo. Você venceu!\n",
      "Você não jogou a tempo e perdeu.\n", ?_⟩
    simp only [determineWinnerMsgs, Prod.mk.injEq]
    exact ⟨rfl, rfl⟩
  · refine ⟨"Você não jogou a tempo e perdeu.\n",
      p1Name ++ " não jogou a tempo. Você venceu!\n", ?_⟩
    simp only [determineWinnerMsgs, Prod.mk.injEq]
    exact ⟨rfl, rfl⟩
  · exact ⟨"Nenhum jogador jogou a tempo. Empate.\n", rfl⟩

/-- Witness for `determineWinner_deterministic` at concrete cards of
strengths 7 and 3. -/
theorem determineWinner_deterministic_witness :
    (Card.mk "Draug" 7).forca > (Card.mk "Grifo" 3).forca ∧
    (∃ t1 t2, determineWinnerMsgs "Alice" "Bob" (some (Card.mk "Draug" 7))
        (some (Card.mk "Grifo" 3)) = ("RESULT|VITÓRIA|" ++ t1, "RESULT|DERROTA|" ++ t2)) :=
  ⟨by decide,
   (determineWinner_deterministic "Alice" "Bob" (Card.mk "Draug" 7) (Card.mk "Grifo" 3)).1
     (by decide)⟩

/-! ## Duel coordinator: single resolution (`game.go`, guard in
`determineWinner`)

`determineWinner` may be invoked both by the `MOVE_MADE` branch and by the
deadline branch of `listenForGameEvents`.  It takes `session.mu`, so runs
serialize; each run first checks `session.Player1.State != "InGame"` and
returns without sending anything if the duel is already resolved, and an
effective run flips P1's state to "Menu" while resolving. -/

/-- The owner-side state that the guard and cleanup of `determineWinner`
read and write: the two names, P1's lifecycle phase
(`session.Player1.State`) and the played cards. -/
structure DuelSession where
  p1Name : String
  p2Name : String
  p1State : Phase
  p1Card : Option Card
  p2Card : Option Card
deriving DecidableEq, Repr

/-- One (serialized) invocation of `determineWinner`: bail if P1 is no
longer `InGame`; otherwise compute the two messages, deliver one to each
side, and flip P1 back to `Menu` (the cleanup at the end of the Go
function). -/
def determineWinner (s : DuelSession) : DuelSession × Option String × Option String :=
  if s.p1State ≠ Phase.InGame then (s, none, none)
  else
    let msgs := determineWinnerMsgs s.p1Name s.p2Name s.p1Card s.p2Card
    ({ s with p1State := Phase.Menu }, some msgs.1, some msgs.2)

/-- `n` successive invocations of `determineWinner` on the same duel
(arising from any mix of move notifications and the deadline), counting how
many messages each participant is sent. -/
def resolutionRuns : DuelSession → Nat → DuelSession × Nat × Nat
  | s, 0 => (s, 0, 0)
  | s, Nat.succ n =>
    let step := determineWinner s
    let rest := resolutionRuns step.1 n
    (rest.1, (if step.2.1.isSome then 1 else 0) + rest.2.1,
      (if step.2.2.isSome then 1 else 0) + rest.2.2)

theorem determineWinner_of_not_inGame (s : DuelSession) (h : s.p1State ≠ Phase.InGame) :
    determineWinner s = (s, none, none) := by
  simp [determineWinner, h]

theorem resolutionRuns_of_not_inGame (s : DuelSession) (h : s.p1State ≠ Phase.InGame) :
    ∀ n, resolutionRuns s n = (s, 0, 0) := by
  intro n
  induction n with
  | zero => rfl
  | succ n ih =>
    simp [resolutionRuns, determineWinner_of_not_inGame s h, ih]

/-- Claim C3: resolution takes effect at most once per duel.
`determineWinner` bails at entry when P1's phase is no longer `InGame`
(sending nothing and changing nothing), and over any number of invocations
— from the move-notification path, the deadline path, or both — each
participant is sent at most one `RESULT|` message. -/
theorem determineWinner_at_most_once (s : DuelSession) (n : Nat) :
    (s.p1State ≠ Phase.InGame → determineWinner s = (s, none, none)) ∧
    (resolutionRuns s n).2.1 ≤ 1 ∧ (resolutionRuns s n).2.2 ≤ 1 := by
  refine ⟨determineWinner_of_not_inGame s, ?_⟩
  cases n with
  | zero => exact ⟨Nat.zero_le 1, Nat.zero_le 1⟩
  | succ n =>
    by_cases h : s.p1State = Phase.InGame
    · have hstep : determineWinner s =
          ({ s with p1State := Phase.Menu },
           some (determineWinnerMsgs s.p1Name s.p2Name s.p1Card s.p2Card).1,
           some (determineWinnerMsgs s.p1Name s.p2Name s.p1Card s.p2Card).2) := by
        simp [determineWinner, h]
      have hrest : resolutionRuns { s with p1State := Phase.Menu } n =
          ({ s with p1State := Phase.Menu }, 0, 0) :=
        resolutionRuns_of_not_inGame _ (by simp) n
      simp [resolutionRuns, hstep, hrest]
    · have hrest := resolutionRuns_of_not_inGame s h
      simp [resolutionRuns, determineWinner_of_not_inGame s h, hrest n]

/-- Witness for `determineWinner_at_most_once`: a resolved duel (P1 back in
`Menu`) is not resolved again, and three invocations on a live duel deliver
at most one message per side. -/
theorem determineWinner_at_most_once_witness :
    (determineWinner ⟨"Alice", "Bob", Phase.Menu, none, none⟩
      = (⟨"Alice", "Bob", Phase.Menu, none, none⟩, none, none)) ∧
    (resolutionRuns ⟨"Alice", "Bob", Phase.InGame, none, none⟩ 3).2.1 ≤ 1 ∧
    (resolutionRuns ⟨"Alice", "Bob", Phase.InGame, none, none⟩ 3).2.2 ≤ 1 := by
  refine ⟨(determineWinner_at_most_once ⟨"Alice", "Bob", Phase.Menu, none, none⟩ 3).1
      (by decide),
    (determineWinner_at_most_once ⟨"Alice", "Bob", Phase.InGame, none, none⟩ 3).2.1,
    (determineWinner_at_most_once ⟨"Alice", "Bob", Phase.InGame, none, none⟩ 3).2.2⟩

/-! ## Matchmaking (`matchmaker.go`, `websocket.go`)

The queue is the Redis sorted set `matchmaking_queue`; its members are the
JSON encodings of `MatchmakingTicket{player_name, server_id, timestamp}`.
JSON encoding of that struct is injective in its three fields, so the
embedding uses the ticket record itself as the set member. -/

/-- `MatchmakingTicket` from `models.go`; equal records encode to the same
sorted-set member and vice versa. -/
structure MMTicket where
  playerName : String
  serverID : String
  timestamp : Int
deriving DecidableEq, Repr

/-- The member count that the atomic
`ZREM matchmaking_queue member1 member2` of `distributedMatchmaker`
reports: how many of the two candidate members were actually present. -/
def zRemPairCount (q : Finset MMTicket) (m1 m2 : MMTicket) : Nat :=
  (({m1, m2} : Finset MMTicket) ∩ q).card

/-- One pairing pass of `distributedMatchmaker` from its commit point, the
atomic two-member `ZREM`.  `m1`, `m2` are the two members the pass read
with `ZRANGE 0 1` earlier; by the time of the `ZREM` another instance may
already have removed them, so they are arbitrary here.  The pass starts a
match (`notifyMatchStart`) only when the removal deleted exactly two
members; otherwise it only skips (`continue`). -/
def pairingPass (q : Finset MMTicket) (m1 m2 : MMTicket) :
    Finset MMTicket × Option (MMTicket × MMTicket) :=
  let q' := (q.erase m1).erase m2
  if zRemPairCount q m1 m2 = 2 then (q', some (m1, m2)) else (q', none)

/-- Any interleaving of pairing passes (on any number of instances): the
atomic `ZREM`s serialize into some order; each list entry is the candidate
pair some pass took to its `ZREM`.  Returns the final queue and the list of
committed matches. -/
def runPairingPasses : Finset MMTicket → List (MMTicket × MMTicket) →
    Finset MMTicket × List (MMTicket × MMTicket)
  | q, [] => (q, [])
  | q, c :: cs =>
    let step := pairingPass q c.1 c.2
    let rest := runPairingPasses step.1 cs
    (rest.1, step.2.toList ++ rest.2)

/-- The tickets consumed by a list of committed matches. -/
def matchedTickets (ms : List (MMTicket × MMTicket)) : List MMTicket :=
  ms.flatMap fun pr => [pr.1, pr.2]

theorem matchedTickets_cons (a b : MMTicket) (ms : List (MMTicket × MMTicket)) :
    matchedTickets ((a, b) :: ms) = a :: b :: matchedTickets ms := rfl

theorem zRemPairCount_eq_two (q : Finset MMTicket) (m1 m2 : MMTicket)
    (h : zRemPairCount q m1 m2 = 2) : m1 ≠ m2 ∧ m1 ∈ q ∧ m2 ∈ q := by
  unfold zRemPairCount at h
  by_cases hne : m1 = m2
  · subst hne
    have hsub : ({m1, m1} : Finset MMTicket) ∩ q ⊆ {m1} := by
      intro x hx
      simp only [Finset.mem_inter, Finset.mem_insert, Finset.mem_singleton, or_self] at hx
      simp [hx.1]
    have := Finset.card_le_card hsub
    rw [h, Finset.card_singleton] at this
    omega
  · have hcardpair : ({m1, m2} : Finset MMTicket).card = 2 := by
      rw [Finset.card_insert_of_not_mem (by simp [hne]), Finset.card_singleton]
    have hsub : ({m1, m2} : Finset MMTicket) ∩ q ⊆ {m1, m2} := Finset.inter_subset_left
    have heq : ({m1, m2} : Finset MMTicket) ∩ q = {m1, m2} := by
      apply Finset.eq_of_subset_of_card_le hsub
      rw [h, hcardpair]
    have h1 : m1 ∈ ({m1, m2} : Finset MMTicket) ∩ q := by rw [heq]; simp
    have h2 : m2 ∈ ({m1, m2} : Finset MMTicket) ∩ q := by rw [heq]; simp
    exact ⟨hne, (Finset.mem_inter.mp h1).2, (Finset.mem_inter.mp h2).2⟩

theorem runPairingPasses_sound (cs : List (MMTicket × MMTicket)) (q : Finset MMTicket) :
    (matchedTickets (runPairingPasses q cs).2).Nodup ∧
    (∀ t ∈ matchedTickets (runPairingPasses q cs).2, t ∈ q) ∧
    (runPairingPasses q cs).1 ⊆ q := by
  induction cs generalizing q with
  | nil => exact ⟨List.nodup_nil, by simp [runPairingPasses, matchedTickets], le_refl q⟩
  | cons c cs ih =>
    set q' := (q.erase c.1).erase c.2 with hq'
    have hq'sub : q' ⊆ q := fun x hx =>
      Finset.mem_of_mem_erase (Finset.mem_of_mem_erase hx)
    have hnm1 : c.1 ∉ q' := by
      intro hx
      exact (Finset.not_mem_erase c.1 q) (Finset.mem_of_mem_erase hx)
    have hnm2 : c.2 ∉ q' := Finset.not_mem_erase c.2 _
    obtain ⟨ihnd, ihmem, ihsub⟩ := ih q'
    by_cases h : zRemPairCount q c.1 c.2 = 2
    · obtain ⟨hne, h1, h2⟩ := zRemPairCount_eq_two q c.1 c.2 h
      have hstep : runPairingPasses q (c :: cs) =
          ((runPairingPasses q' cs).1, (c.1, c.2) :: (runPairingPasses q' cs).2) := by
        simp [runPairingPasses, pairingPass, h, ← hq']
      rw [hstep]
      refine ⟨?_, ?_, fun x hx => hq'sub (ihsub hx)⟩
      · rw [matchedTickets_cons, List.nodup_cons, List.nodup_cons]
        refine ⟨?_, ?_, ihnd⟩
        · intro hmem
          rcases List.mem_cons.mp hmem with hL | hR
          · exact hne hL
          · exact hnm1 (ihmem _ hR)
        · intro hmem
          exact hnm2 (ihmem _ hmem)
      · intro t ht
        rw [matchedTickets_cons] at ht
        rcases List.mem_cons.mp ht with rfl | ht'
        · exact h1
        · rcases List.mem_cons.mp ht' with rfl | ht''
          · exact h2
          · exact hq'sub (ihmem t ht'')
    · have hstep : runPairingPasses q (c :: cs) =
          ((runPairingPasses q' cs).1, (runPairingPasses q' cs).2) := by
        simp [runPairingPasses, pairingPass, h, ← hq']
      rw [hstep]
      exact ⟨ihnd, fun t ht => hq'sub (ihmem t ht), fun x hx => hq'sub (ihsub hx)⟩

/-- Counterexample to claim C4 as stated: the sorted set can hold two
tickets bearing the same player name (reachable by the re-enqueue path
shown for claim C5), and a pairing pass then legitimately commits them as
one match — the atomic `ZREM` does delete exactly two members — so player
"A" is reported matched twice. -/
theorem pairing_player_matched_twice_counterexample :
    (pairingPass ({⟨"A", "s1", 1⟩, ⟨"A", "s1", 2⟩} : Finset MMTicket)
        ⟨"A", "s1", 1⟩ ⟨"A", "s1", 2⟩).2 = some (⟨"A", "s1", 1⟩, ⟨"A", "s1", 2⟩) ∧
    ¬ ((matchedTickets (runPairingPasses
        ({⟨"A", "s1", 1⟩, ⟨"A", "s1", 2⟩} : Finset MMTicket)
        [(⟨"A", "s1", 1⟩, ⟨"A", "s1", 2⟩)]).2).map MMTicket.playerName).Nodup := by
  decide

/-- Claim C4 (amended): a pairing pass commits a match for two tickets
only when the atomic two-member `ZREM` deleted exactly both candidates —
which requires both to have still been in the sorted set, and they are
removed by that same atomic step; if it deleted fewer than two, no match
is started.  Consequently, across any interleaving of pairing passes on
any number of instances, no *ticket* is consumed by two matches and every
consumed ticket was previously in the queue; and *when the queue holds at
most one ticket per player name*, no player is reported matched twice.
Without that proviso the per-player conclusion fails: the queue can hold
two tickets bearing one name (claim C5) and both can be consumed. -/
theorem pairing_ticket_exactly_once (q : Finset MMTicket) (m1 m2 : MMTicket)
    (cs : List (MMTicket × MMTicket)) :
    ((pairingPass q m1 m2).2.isSome → m1 ≠ m2 ∧ m1 ∈ q ∧ m2 ∈ q ∧
      m1 ∉ (pairingPass q m1 m2).1 ∧ m2 ∉ (pairingPass q m1 m2).1) ∧
    (zRemPairCount q m1 m2 < 2 → (pairingPass q m1 m2).2 = none) ∧
    (matchedTickets (runPairingPasses q cs).2).Nodup ∧
    (∀ t ∈ matchedTickets (runPairingPasses q cs).2, t ∈ q) ∧
    ((∀ t1 ∈ q, ∀ t2 ∈ q, MMTicket.playerName t1 = MMTicket.playerName t2 → t1 = t2) →
      ((matchedTickets (runPairingPasses q cs).2).map MMTicket.playerName).Nodup) := by
  obtain ⟨hnd, hmem, _⟩ := runPairingPasses_sound cs q
  refine ⟨?_, ?_, hnd, hmem,
    fun hinj => List.Nodup.map_on
      (fun x hx y hy hxy => hinj x (hmem x hx) y (hmem y hy) hxy) hnd⟩
  · intro hsome
    by_cases h : zRemPairCount q m1 m2 = 2
    · obtain ⟨hne, h1, h2⟩ := zRemPairCount_eq_two q m1 m2 h
      refine ⟨hne, h1, h2, ?_, ?_⟩
      · simp only [pairingPass, h, if_pos]
        intro hx
        exact (Finset.not_mem_erase m1 q) (Finset.mem_of_mem_erase hx)
      · simp only [pairingPass, h, if_pos]
        exact Finset.not_mem_erase m2 _
    · simp [pairingPass, h] at hsome
  · intro hlt
    have : zRemPairCount q m1 m2 ≠ 2 := by omega
    simp [pairingPass, this]

set_option maxHeartbeats 1000000 in
/-- Witness for `pairing_ticket_exactly_once`: a queue of three tickets
with pairwise-distinct player names, one committing pass and one racing
pass that saw a stale read. -/
theorem pairing_ticket_exactly_once_witness :
    ((pairingPass {⟨"A", "s1", 1⟩, ⟨"B", "s2", 2⟩, ⟨"C", "s1", 3⟩}
        ⟨"A", "s1", 1⟩ ⟨"B", "s2", 2⟩).2.isSome ∧
      zRemPairCount ({⟨"C", "s1", 3⟩} : Finset MMTicket)
        ⟨"A", "s1", 1⟩ ⟨"B", "s2", 2⟩ < 2) ∧
    ((pairingPass {⟨"A", "s1", 1⟩, ⟨"B", "s2", 2⟩, ⟨"C", "s1", 3⟩}
        ⟨"A", "s1", 1⟩ ⟨"B", "s2", 2⟩).2.isSome →
      (⟨"A", "s1", 1⟩ : MMTicket) ≠ ⟨"B", "s2", 2⟩) ∧
    (pairingPass ({⟨"C", "s1", 3⟩} : Finset MMTicket)
        ⟨"A", "s1", 1⟩ ⟨"B", "s2", 2⟩).2 = none ∧
    (matchedTickets (runPairingPasses
        {⟨"A", "s1", 1⟩, ⟨"B", "s2", 2⟩, ⟨"C", "s1", 3⟩}
        [(⟨"A", "s1", 1⟩, ⟨"B", "s2", 2⟩),
         (⟨"A", "s1", 1⟩, ⟨"B", "s2", 2⟩)]).2).Nodup ∧
    ((matchedTickets (runPairingPasses
        {⟨"A", "s1", 1⟩, ⟨"B", "s2", 2⟩, ⟨"C", "s1", 3⟩}
        [(⟨"A", "s1", 1⟩, ⟨"B", "s2", 2⟩)]).2).map MMTicket.playerName).Nodup := by
  refine ⟨⟨by decide, by decide⟩, ?_, ?_, ?_, ?_⟩
  · intro hsome
    exact ((pairing_ticket_exactly_once _ _ _ []).1 hsome).1
  · exact (pairing_ticket_exactly_once _ _ _ []).2.1 (by decide)
  · exact (pairing_ticket_exactly_once _ ⟨"A", "s1", 1⟩ ⟨"B", "s2", 2⟩ _).2.2.1
  · exact (pairing_ticket_exactly_once _ ⟨"A", "s1", 1⟩ ⟨"B", "s2", 2⟩ _).2.2.2.2
      (by decide)

/-! ## Enqueue path (`websocket.go` `listenClientCommands`,
`matchmaker.go` `addToMatchmakingQueue`)

`listenClientCommands` snapshots the player's phase and current game under
the player lock; if the phase is `InGame` and a game is attached, every
command goes to `handleGameMove`, otherwise the menu switch runs.  The menu
switch sends `FIND_MATCH` straight to `addToMatchmakingQueue`; neither
place checks for the `Searching` phase. -/

/-- Where `listenClientCommands` routes one inbound command, given the
snapshot of the player's phase and whether `CurrentGame` is non-nil. -/
inductive RoutedAction
  | gameMove
  | enqueue
  | openPack
  | viewDeck
  | invalid
deriving DecidableEq, Repr

/-- The routing logic of `listenClientCommands` (`websocket.go`). -/
def listenClientCommandsRoute (state : Phase) (hasGame : Bool) (command : String) :
    RoutedAction :=
  if state = Phase.InGame ∧ hasGame = true then RoutedAction.gameMove
  else if command = "FIND_MATCH" then RoutedAction.enqueue
  else if command = "OPEN_PACK" then RoutedAction.openPack
  else if command = "VIEW_DECK" then RoutedAction.viewDeck
  else RoutedAction.invalid

/-- The player fields `addToMatchmakingQueue` touches. -/
structure QueuePlayer where
  name : String
  phase : Phase
deriving DecidableEq, Repr

/-- `addToMatchmakingQueue` (`matchmaker.go`), success path of the `ZADD`:
unconditionally set the phase to "Searching" and `ZADD` the ticket built
from the player name, this server's id and the current unix time.  (On a
store error the function instead reverts the phase to `Menu` and adds
nothing.)  There is no rejection of players already `Searching`. -/
def addToMatchmakingQueue (p : QueuePlayer) (serverID : String) (now : Int)
    (q : Finset MMTicket) : QueuePlayer × Finset MMTicket :=
  ({ p with phase := Phase.Searching }, insert ⟨p.name, serverID, now⟩ q)

/-- Counterexample to claim C5: a player already `Searching` who sends
`FIND_MATCH` is routed to `addToMatchmakingQueue` (not rejected), and when
the clock has advanced the queue then holds two tickets bearing the
player's name. -/
theorem find_match_searching_counterexample :
    listenClientCommandsRoute Phase.Searching false "FIND_MATCH" = RoutedAction.enqueue ∧
    ((addToMatchmakingQueue ⟨"A", Phase.Searching⟩ "s1" 5
        ({⟨"A", "s1", 4⟩} : Finset MMTicket)).2.filter
        (fun t => t.playerName = "A")).card = 2 := by
  decide

/-- Claim C5 (amended): a `FIND_MATCH` from a player whose phase is
`InGame` (with an attached game) is routed to the move handler and never
enqueued; but a `FIND_MATCH` from a `Searching` player is routed to
`addToMatchmakingQueue`, which unconditionally re-enqueues — so the queue
can hold more than one ticket per player name (the tickets differing in
timestamp), and the at-most-one-ticket invariant does not hold. -/
theorem find_match_routing_amended (p : QueuePlayer) (serverID command : String)
    (now ts0 : Int) (q : Finset MMTicket) :
    listenClientCommandsRoute Phase.InGame true command = RoutedAction.gameMove ∧
    listenClientCommandsRoute Phase.Searching false "FIND_MATCH" = RoutedAction.enqueue ∧
    ((addToMatchmakingQueue p serverID now q).1.phase = Phase.Searching ∧
      (addToMatchmakingQueue p serverID now q).2 = insert ⟨p.name, serverID, now⟩ q) ∧
    ((⟨p.name, serverID, ts0⟩ : MMTicket) ∈ q → ts0 ≠ now →
      2 ≤ ((addToMatchmakingQueue p serverID now q).2.filter
        (fun t => t.playerName = p.name)).card) := by
  refine ⟨by simp [listenClientCommandsRoute], by decide, ⟨rfl, rfl⟩, ?_⟩
  intro hmem hne
  have hne' : (⟨p.name, serverID, ts0⟩ : MMTicket) ≠ ⟨p.name, serverID, now⟩ := by
    intro hcontra
    exact hne (congrArg MMTicket.timestamp hcontra)
  have hsub : ({⟨p.name, serverID, ts0⟩, ⟨p.name, serverID, now⟩} : Finset MMTicket)
      ⊆ (addToMatchmakingQueue p serverID now q).2.filter
        (fun t => t.playerName = p.name) := by
    intro x hx
    rcases Finset.mem_insert.mp hx with rfl | hx
    · exact Finset.mem_filter.mpr ⟨Finset.mem_insert_of_mem hmem, rfl⟩
    · rw [Finset.mem_singleton] at hx
      subst hx
      exact Finset.mem_filter.mpr ⟨Finset.mem_insert_self _ q, rfl⟩
  have hcard : ({⟨p.name, serverID, ts0⟩, ⟨p.name, serverID, now⟩} : Finset MMTicket).card
      = 2 := by
    rw [Finset.card_insert_of_not_mem (by simpa using hne'), Finset.card_singleton]
  calc 2 = _ := hcard.symm
    _ ≤ _ := Finset.card_le_card hsub

/-- Witness for `find_match_routing_amended` at a queue already holding an
earlier ticket of the same player. -/
theorem find_match_routing_amended_witness :
    listenClientCommandsRoute Phase.InGame true "FIND_MATCH" = RoutedAction.gameMove ∧
    2 ≤ ((addToMatchmakingQueue ⟨"A", Phase.Searching⟩ "s1" 5
        ({⟨"A", "s1", 4⟩} : Finset MMTicket)).2.filter
        (fun t => t.playerName = "A")).card := by
  refine ⟨(find_match_routing_amended ⟨"A", Phase.Searching⟩ "s1" "FIND_MATCH" 5 4
      {⟨"A", "s1", 4⟩}).1, ?_⟩
  exact (find_match_routing_amended ⟨"A", Phase.Searching⟩ "s1" "FIND_MATCH" 5 4
    {⟨"A", "s1", 4⟩}).2.2.2 (by decide) (by decide)

/-! ## Duel move submission (`game.go`, `handleGameMove`)

`handleGameMove` writes a move into the hash `game:state:p1Name` under the
field `p1_card` or `p2_card` and publishes `MOVE_MADE`.  The hash field
value is the JSON of the chosen card; JSON encoding of `Card` is injective,
so the field is embedded as the decoded card.  The `HEXISTS`-then-`HSET`
pair runs under the owner's arbitration (the spec's stated assumption), so
successive moves of one side serialize. -/

/-- The coordination-store hash `game:state:p1Name` with its two fields. -/
structure GameStateHash where
  p1Card : Option Card
  p2Card : Option Card
deriving DecidableEq, Repr

/-- What `handleGameMove` does besides updating the hash: the local reply
or the stored move (which is also published as `MOVE_MADE`). -/
inductive MoveOutcome
  | invalid
  | alreadyPlayed
  | stored (c : Card)
deriving DecidableEq, Repr

/-- The field of this player's side. -/
def sideField (isP1 : Bool) (h : GameStateHash) : Option Card :=
  if isP1 then h.p1Card else h.p2Card

/-- `handleGameMove`: parse the command with `Atoi` and require 1 or 2;
pick the card from the local hand; `HEXISTS` the side's field — if present
answer already-played and write nothing; otherwise `HSET` the card. -/
def handleGameMove (isP1 : Bool) (hand1 hand2 : Card) (command : String)
    (h : GameStateHash) : GameStateHash × MoveOutcome :=
  match command.toNat? with
  | none => (h, MoveOutcome.invalid)
  | some choice =>
    if choice ≠ 1 ∧ choice ≠ 2 then (h, MoveOutcome.invalid)
    else
      let chosenCard := if choice = 1 then hand1 else hand2
      if (sideField isP1 h).isSome then (h, MoveOutcome.alreadyPlayed)
      else
        (if isP1 then { h with p1Card := some chosenCard }
          else { h with p2Card := some chosenCard },
          MoveOutcome.stored chosenCard)

/-- A sequence of move commands from the same side, serialized. -/
def runMoves (isP1 : Bool) (hand1 hand2 : Card) : List String → GameStateHash → GameStateHash
  | [], h => h
  | cmd :: cmds, h => runMoves isP1 hand1 hand2 cmds (handleGameMove isP1 hand1 hand2 cmd h).1

theorem handleGameMove_already (isP1 : Bool) (hand1 hand2 : Card) (command : String)
    (h : GameStateHash) (v : Card) (hv : sideField isP1 h = some v) :
    (handleGameMove isP1 hand1 hand2 command h).1 = h ∧
    ((command.toNat? = some 1 ∨ command.toNat? = some 2) →
      (handleGameMove isP1 hand1 hand2 command h).2 = MoveOutcome.alreadyPlayed) := by
  have htaken : (sideField isP1 h).isSome = true := by rw [hv]; rfl
  cases hp : command.toNat? with
  | none =>
    refine ⟨by simp [handleGameMove, hp], ?_⟩
    intro hc
    rcases hc with hc | hc <;> exact absurd hc (by simp)
  | some choice =>
    by_cases hch : choice ≠ 1 ∧ choice ≠ 2
    · refine ⟨by simp [handleGameMove, hp, hch], ?_⟩
      intro hc
      rcases hc with hc | hc <;> injection hc with hc <;> omega
    · exact ⟨by simp [handleGameMove, hp, hch, htaken], fun _ => by
        simp [handleGameMove, hp, hch, htaken]⟩

theorem runMoves_preserves (isP1 : Bool) (hand1 hand2 : Card) (cmds : List String)
    (h : GameStateHash) (v : Card) (hv : sideField isP1 h = some v) :
    sideField isP1 (runMoves isP1 hand1 hand2 cmds h) = some v := by
  induction cmds generalizing h with
  | nil => exact hv
  | cons cmd cmds ih =>
    have hstep := (handleGameMove_already isP1 hand1 hand2 cmd h v hv).1
    simp only [runMoves, hstep]
    exact ih h hv

/-- Claim C6: a move command arriving while the side's hash field already
exists is answered with the already-played message and the hash is not
overwritten — for a valid command ("1"/"2") the outcome is
`alreadyPlayed`, for any command the hash is unchanged — and hence over
any further sequence of commands from that side the stored field keeps its
first value: each player plays at most once per duel and only the first
move counts. -/
theorem move_first_write_wins (isP1 : Bool) (hand1 hand2 : Card) (command : String)
    (cmds : List String) (h : GameStateHash) (v : Card) :
    (sideField isP1 h = some v →
      (handleGameMove isP1 hand1 hand2 command h).1 = h ∧
      ((command.toNat? = some 1 ∨ command.toNat? = some 2) →
        (handleGameMove isP1 hand1 hand2 command h).2 = MoveOutcome.alreadyPlayed)) ∧
    (sideField isP1 h = some v →
      sideField isP1 (runMoves isP1 hand1 hand2 cmds h) = some v) := by
  exact ⟨handleGameMove_already isP1 hand1 hand2 command h v,
    runMoves_preserves isP1 hand1 hand2 cmds h v⟩

/-- Witness for `move_first_write_wins`: a hash whose `p1_card` field is
already set stays set through a repeated "1" and a "2". -/
theorem move_first_write_wins_witness :
    (handleGameMove true (Card.mk "Grifo" 3) (Card.mk "Draug" 7) "1"
        ⟨some (Card.mk "Grifo" 3), none⟩).1 = ⟨some (Card.mk "Grifo" 3), none⟩ ∧
    sideField true (runMoves true (Card.mk "Grifo" 3) (Card.mk "Draug" 7) ["1", "2"]
        ⟨some (Card.mk "Grifo" 3), none⟩) = some (Card.mk "Grifo" 3) := by
  refine ⟨((move_first_write_wins true (Card.mk "Grifo" 3) (Card.mk "Draug" 7) "1" ["1", "2"]
      ⟨some (Card.mk "Grifo" 3), none⟩ (Card.mk "Grifo" 3)).1 (by decide)).1, ?_⟩
  exact (move_first_write_wins true (Card.mk "Grifo" 3) (Card.mk "Draug" 7) "1" ["1", "2"]
    ⟨some (Card.mk "Grifo" 3), none⟩ (Card.mk "Grifo" 3)).2 (by decide)

/-! ## Per-player pack cap (`openCardPack`)

`openCardPack(player, isMandatory)` is the caller of the atomic stock
script; the welcome pack at connection time is the `isMandatory = true`
call, `OPEN_PACK` is the `isMandatory = false` call. -/

/-- The player fields `openCardPack` touches. -/
structure PackPlayer where
  name : String
  deck : List Card
  packsOpened : Nat
deriving DecidableEq, Repr

/-- The message `openCardPack` sends: the cap refusal, the
insufficient-stock apology, or the welcome/extra-pack text listing the
cards. -/
inductive PackOutcome
  | capReached
  | insufficientStock
  | opened (mandatory : Bool) (pack : List Card)
deriving DecidableEq, Repr

/-- `openCardPack`: a voluntary call is refused when `PacksOpened >= 3`;
otherwise the pack is issued atomically, appended to the deck, and
`PacksOpened` is incremented — including for the mandatory welcome
pack. -/
def openCardPack (p : PackPlayer) (stock : List Card) (isMandatory : Bool) :
    PackPlayer × List Card × PackOutcome :=
  if isMandatory = false ∧ 3 ≤ p.packsOpened then (p, stock, PackOutcome.capReached)
  else
    match openCardPackDistributed stock with
    | (none, stock') => (p, stock', PackOutcome.insufficientStock)
    | (some pack, stock') =>
      ({ p with deck := p.deck ++ pack, packsOpened := p.packsOpened + 1 },
        stock', PackOutcome.opened isMandatory pack)

/-- Counterexample to claim C7: after the mandatory welcome pack, the first
two voluntary `OPEN_PACK`s succeed but the third voluntary request is
rejected with the cap message even though the stock still holds a full
pack — the welcome pack does count toward the cap of 3. -/
theorem pack_cap_counterexample :
    (let stock0 := (List.range 12).map fun i => Card.mk "c" (Int.ofNat i)
     let s1 := openCardPack ⟨"A", [], 0⟩ stock0 true
     let s2 := openCardPack s1.1 s1.2.1 false
     let s3 := openCardPack s2.1 s2.2.1 false
     let s4 := openCardPack s3.1 s3.2.1 false
     (s2.2.2 ≠ PackOutcome.capReached ∧ s3.2.2 ≠ PackOutcome.capReached) ∧
      s4.2.2 = PackOutcome.capReached ∧ PACK_SIZE ≤ s3.2.1.length) := by
  decide

/-- Claim C7 (amended): a voluntary `OPEN_PACK` succeeds exactly while the
player's `PacksOpened` counter is below 3 and is rejected with the cap
message once it reaches 3; the mandatory welcome pack bypasses the cap
check but increments the same counter, so after a welcome pack only the
first two voluntary requests succeed and the third is rejected. -/
theorem pack_cap_amended (p : PackPlayer) (stock : List Card) :
    (3 ≤ p.packsOpened → openCardPack p stock false = (p, stock, PackOutcome.capReached)) ∧
    (p.packsOpened < 3 → PACK_SIZE ≤ stock.length →
      openCardPack p stock false =
        ({ p with deck := p.deck ++ stock.take PACK_SIZE, packsOpened := p.packsOpened + 1 },
          stock.drop PACK_SIZE, PackOutcome.opened false (stock.take PACK_SIZE))) ∧
    (PACK_SIZE ≤ stock.length →
      openCardPack p stock true =
        ({ p with deck := p.deck ++ stock.take PACK_SIZE, packsOpened := p.packsOpened + 1 },
          stock.drop PACK_SIZE, PackOutcome.opened true (stock.take PACK_SIZE))) := by
  refine ⟨?_, ?_, ?_⟩
  · intro hcap
    simp [openCardPack, hcap]
  · intro hcap hstock
    simp [openCardPack, openCardPackDistributed_of_le stock hstock, hcap,
      Nat.not_le.mpr hcap]
  · intro hstock
    have hcond : ¬ ((true : Bool) = false ∧ 3 ≤ p.packsOpened) := by
      intro hc; exact absurd hc.1 (by simp)
    simp [openCardPack, hcond, openCardPackDistributed_of_le stock hstock]

/-- Witness for `pack_cap_amended`: the cap refusal at counter 3, a
voluntary success at counter 2, and a mandatory success at counter 3. -/
theorem pack_cap_amended_witness :
    openCardPack ⟨"A", [], 3⟩ [Card.mk "x" 1, Card.mk "y" 2, Card.mk "z" 3] false
      = (⟨"A", [], 3⟩, [Card.mk "x" 1, Card.mk "y" 2, Card.mk "z" 3],
          PackOutcome.capReached) ∧
    openCardPack ⟨"A", [], 2⟩ [Card.mk "x" 1, Card.mk "y" 2, Card.mk "z" 3] false
      = (⟨"A", [Card.mk "x" 1, Card.mk "y" 2, Card.mk "z" 3], 3⟩, [],
          PackOutcome.opened false [Card.mk "x" 1, Card.mk "y" 2, Card.mk "z" 3]) ∧
    openCardPack ⟨"A", [], 3⟩ [Card.mk "x" 1, Card.mk "y" 2, Card.mk "z" 3] true
      = (⟨"A", [Card.mk "x" 1, Card.mk "y" 2, Card.mk "z" 3], 4⟩, [],
          PackOutcome.opened true [Card.mk "x" 1, Card.mk "y" 2, Card.mk "z" 3]) := by
  refine ⟨(pack_cap_amended ⟨"A", [], 3⟩ _).1 (by decide),
    (pack_cap_amended ⟨"A", [], 2⟩ _).2.1 (by decide) (by decide),
    (pack_cap_amended ⟨"A", [], 3⟩ _).2.2 (by decide)⟩

/-! ## Matchmaker tick and the lock (`matchmaker.go`,
`distributedMatchmaker`)

`distributedMatchmaker` is an infinite `for range ticker.C` loop.  On each
tick it tries `SETNX lock:matchmaker token 1s`; on success the body reads
the two lowest-scored queue members (`ZRANGE 0 1`), decodes them, removes
them atomically and notifies the match.  The compare-token delete script
for the lock is registered with `defer` *inside the loop body*: in Go a
deferred call runs when the surrounding function returns — not at the end
of a loop iteration — and `distributedMatchmaker` never returns, so the
registered release does not execute during or after the tick; the tick
model records it in `deferredReleases` instead of applying it. -/

/-- The store keys a matchmaker tick touches: `lock:matchmaker` and the
sorted set (as an ascending list of its members). -/
structure MatchmakerStore where
  lockValue : Option String
  queue : List MMTicket
deriving DecidableEq, Repr

/-- The state of the world at the end of one loop iteration: the store,
the deferred (registered, unexecuted) compare-token deletes, and the pair
committed by this tick, if any. -/
structure TickResult where
  store : MatchmakerStore
  deferredReleases : List String
  paired : Option (MMTicket × MMTicket)
deriving DecidableEq, Repr

/-- The compare-token delete script used for `lock:matchmaker` and
`lock:trade`: delete the key only if it still holds this token; returns
the new value and the number of deleted keys. -/
def releaseLockIfTokenMatches (lockValue : Option String) (token : String) :
    Option String × Nat :=
  if lockValue = some token then (none, 1) else (lockValue, 0)

/-- One iteration of the `for range ticker.C` body of
`distributedMatchmaker`, with the decode of both tickets succeeding (the
members are well-formed ticket encodings). -/
def matchmakerTick (st : MatchmakerStore) (token : String) : TickResult :=
  if st.lockValue.isSome then ⟨st, [], none⟩
  else
    match st.queue with
    | m1 :: m2 :: rest => ⟨⟨some token, rest⟩, [token], some (m1, m2)⟩
    | _ => ⟨⟨some token, st.queue⟩, [token], none⟩

/-- Claim C8 fails on the code: on a tick that acquires `lock:matchmaker`
— whether it pairs or skips — the compare-token delete has *not* run by
the end of the tick; the lock key still holds this tick's token and the
release is merely registered on the function's deferred stack (which only
unwinds if `distributedMatchmaker` ever returned).  Only the 1 s TTL frees
the lock before the next 2 s tick.  The last conjunct shows the registered
script would release the lock if it did run. -/
theorem matchmaker_lock_not_released_per_tick :
    (matchmakerTick ⟨none, []⟩ "server-1-42").store.lockValue = some "server-1-42" ∧
    (matchmakerTick ⟨none, []⟩ "server-1-42").deferredReleases = ["server-1-42"] ∧
    (matchmakerTick ⟨none, [⟨"A", "s1", 1⟩, ⟨"B", "s2", 2⟩]⟩ "server-1-43").store.lockValue
      = some "server-1-43" ∧
    (matchmakerTick ⟨none, [⟨"A", "s1", 1⟩, ⟨"B", "s2", 2⟩]⟩ "server-1-43").paired
      = some (⟨"A", "s1", 1⟩, ⟨"B", "s2", 2⟩) ∧
    (releaseLockIfTokenMatches
      (matchmakerTick ⟨none, []⟩ "server-1-42").store.lockValue "server-1-42").1 = none :=
  ⟨rfl, rfl, rfl, rfl, rfl⟩

/-! ## Trade service (`trade.go`, `handleTradeCard`,
`performDistributedTrade`)

`trade_queue` is a Redis list of JSON `TradeTicket`s; its elements are
embedded in decoded view: `valid` elements decode, `corrupt` elements fail
`json.Unmarshal`.  The branch determinants of the store calls are
parameters: `lockAttempt` is the outcome of `SETNX lock:trade` and
`popFails` signals a non-Nil `LPOP` error. -/

/-- `TradeTicket` from `trade.go`. -/
structure TradeTicket where
  playerName : String
  serverID : String
  card : Card
deriving DecidableEq, Repr

/-- A `trade_queue` element in decoded view. -/
inductive QueueElem
  | valid (t : TradeTicket)
  | corrupt (raw : String)
deriving DecidableEq, Repr

/-- The three outcomes of the `SETNX lock:trade` call. -/
inductive LockAttempt
  | acquired
  | busy
  | storeError
deriving DecidableEq, Repr

/-- The message `performDistributedTrade` produces for the initiator. -/
inductive TradeOutcome
  | lockErrorRestored
  | busyRestored
  | popErrorRestored
  | corruptRestored
  | queuedAwaitingPartner
  | completed (received : Card) (partnerName : String)
deriving DecidableEq, Repr

/-- `performDistributedTrade`, called after `handleTradeCard` removed
`cardToTrade` from the deck.  Every failure path appends the card back to
the deck; the decode-failure path additionally `LPUSH`es the corrupted
element back onto the head of `trade_queue`.  Returns (deck, queue,
outcome). -/
def performDistributedTrade (deck : List Card) (cardToTrade : Card)
    (playerName serverID : String) (lockAttempt : LockAttempt) (popFails : Bool)
    (queue : List QueueElem) : List Card × List QueueElem × TradeOutcome :=
  match lockAttempt with
  | LockAttempt.storeError => (deck ++ [cardToTrade], queue, TradeOutcome.lockErrorRestored)
  | LockAttempt.busy => (deck ++ [cardToTrade], queue, TradeOutcome.busyRestored)
  | LockAttempt.acquired =>
    if popFails then (deck ++ [cardToTrade], queue, TradeOutcome.popErrorRestored)
    else
      match queue with
      | [] => (deck, [QueueElem.valid ⟨playerName, serverID, cardToTrade⟩],
          TradeOutcome.queuedAwaitingPartner)
      | QueueElem.corrupt raw :: rest =>
        (deck ++ [cardToTrade], QueueElem.corrupt raw :: rest,
          TradeOutcome.corruptRestored)
      | QueueElem.valid t :: rest =>
        (deck ++ [t.card], rest, TradeOutcome.completed t.card t.playerName)

/-- `handleTradeCard`: refuse unless the phase allows trading; parse and
bound-check the 1-based index; remove that card from the deck locally; run
the distributed trade.  A `none` outcome means the command was refused
before any card was removed. -/
def handleTradeCard (phase : Phase) (deck : List Card) (playerName serverID : String)
    (index : Nat) (lockAttempt : LockAttempt) (popFails : Bool)
    (queue : List QueueElem) : List Card × List QueueElem × Option TradeOutcome :=
  if phase = Phase.InGame ∨ phase = Phase.Searching then (deck, queue, none)
  else if index < 1 ∨ deck.length < index then (deck, queue, none)
  else
    match deck[index - 1]? with
    | none => (deck, queue, none)
    | some cardToTrade =>
      let res := performDistributedTrade (deck.eraseIdx (index - 1)) cardToTrade
        playerName serverID lockAttempt popFails queue
      (res.1, res.2.1, some res.2.2)

theorem eraseIdx_append_self_perm {α : Type} (l : List α) (k : Nat) (c : α)
    (hc : l[k]? = some c) : (l.eraseIdx k ++ [c]).Perm l := by
  have hk : k < l.length := by
    by_contra hk
    rw [List.getElem?_eq_none (le_of_not_lt hk)] at hc
    exact absurd hc (by simp)
  have hget : l[k] = c := by
    rw [List.getElem?_eq_getElem hk] at hc
    injection hc
  subst hget
  rw [List.eraseIdx_eq_take_drop_succ, List.append_assoc]
  have h3 := List.perm_append_singleton (l[k]) (l.drop (k + 1))
  have h4 := List.Perm.append_left (l.take k) h3
  rw [← List.drop_eq_getElem_cons hk, List.take_append_drop] at h4
  exact h4

theorem handleTradeCard_run (deck : List Card) (playerName serverID : String)
    (index : Nat) (lockAttempt : LockAttempt) (popFails : Bool)
    (queue : List QueueElem) (h1 : 1 ≤ index) (h2 : index ≤ deck.length) :
    ∃ c, deck[index - 1]? = some c ∧
      handleTradeCard Phase.Menu deck playerName serverID index lockAttempt popFails queue
        = ((performDistributedTrade (deck.eraseIdx (index - 1)) c playerName serverID
            lockAttempt popFails queue).1,
           (performDistributedTrade (deck.eraseIdx (index - 1)) c playerName serverID
            lockAttempt popFails queue).2.1,
           some (performDistributedTrade (deck.eraseIdx (index - 1)) c playerName serverID
            lockAttempt popFails queue).2.2) := by
  have hidx : index - 1 < deck.length := by omega
  refine ⟨deck[index - 1], List.getElem?_eq_getElem hidx, ?_⟩
  have hphase : ¬ (Phase.Menu = Phase.InGame ∨ Phase.Menu = Phase.Searching) := by
    decide
  have hbound : ¬ (index < 1 ∨ deck.length < index) := by omega
  simp only [handleTradeCard, if_neg hphase, if_neg hbound, List.getElem?_eq_getElem hidx]

/-- Claim C9: once `handleTradeCard` has removed the offered card from the
initiator's deck, every failure path of `performDistributedTrade` — store
error while acquiring `lock:trade`, lock not acquired, store error at the
`LPOP`, or decode failure of the popped element — appends that card back,
so the final deck is a permutation of the pre-trade deck (no card is
silently destroyed), and on decode failure the corrupted element is also
pushed back onto the head of `trade_queue`. -/
theorem trade_failure_restores (deck : List Card) (c : Card)
    (playerName serverID raw : String) (popFails : Bool)
    (queue rest : List QueueElem) (index : Nat) (lockAttempt : LockAttempt) :
    (performDistributedTrade deck c playerName serverID LockAttempt.storeError popFails queue
      = (deck ++ [c], queue, TradeOutcome.lockErrorRestored)) ∧
    (performDistributedTrade deck c playerName serverID LockAttempt.busy popFails queue
      = (deck ++ [c], queue, TradeOutcome.busyRestored)) ∧
    (performDistributedTrade deck c playerName serverID LockAttempt.acquired true queue
      = (deck ++ [c], queue, TradeOutcome.popErrorRestored)) ∧
    (performDistributedTrade deck c playerName serverID LockAttempt.acquired false
        (QueueElem.corrupt raw :: rest)
      = (deck ++ [c], QueueElem.corrupt raw :: rest, TradeOutcome.corruptRestored)) ∧
    (1 ≤ index → index ≤ deck.length →
      (lockAttempt ≠ LockAttempt.acquired ∨ popFails = true →
        (handleTradeCard Phase.Menu deck playerName serverID index lockAttempt popFails
          queue).1.Perm deck ∧
        (handleTradeCard Phase.Menu deck playerName serverID index lockAttempt popFails
          queue).2.1 = queue) ∧
      ((handleTradeCard Phase.Menu deck playerName serverID index lockAttempt false
          (QueueElem.corrupt raw :: rest)).1.Perm deck ∧
        (handleTradeCard Phase.Menu deck playerName serverID index lockAttempt false
          (QueueElem.corrupt raw :: rest)).2.1 = QueueElem.corrupt raw :: rest ∨
        lockAttempt = LockAttempt.acquired ∧
        (handleTradeCard Phase.Menu deck playerName serverID index lockAttempt false
          (QueueElem.corrupt raw :: rest)).2.1 = QueueElem.corrupt raw :: rest)) := by
  refine ⟨rfl, rfl, rfl, rfl, ?_⟩
  intro h1 h2
  obtain ⟨c0, hc0, heq⟩ := handleTradeCard_run deck playerName serverID index lockAttempt
    popFails queue h1 h2
  obtain ⟨c1, hc1, heq1⟩ := handleTradeCard_run deck playerName serverID index lockAttempt
    false (QueueElem.corrupt raw :: rest) h1 h2
  have hperm := eraseIdx_append_self_perm deck (index - 1)
  constructor
  · intro hfail
    rw [heq]
    cases lockAttempt with
    | storeError => exact ⟨hperm c0 hc0, rfl⟩
    | busy => exact ⟨hperm c0 hc0, rfl⟩
    | acquired =>
      rcases hfail with hfail | hfail
      · exact absurd rfl hfail
      · subst hfail
        exact ⟨hperm c0 hc0, rfl⟩
  · left
    rw [heq1]
    cases lockAttempt with
    | storeError => exact ⟨hperm c1 hc1, rfl⟩
    | busy => exact ⟨hperm c1 hc1, rfl⟩
    | acquired => exact ⟨hperm c1 hc1, rfl⟩

/-- Witness for `trade_failure_restores`: a two-card deck offering its
first card into a busy lock and into a corrupted queue head. -/
theorem trade_failure_restores_witness :
    performDistributedTrade [Card.mk "y" 2] (Card.mk "x" 1) "A" "s1"
        LockAttempt.busy false []
      = ([Card.mk "y" 2, Card.mk "x" 1], [], TradeOutcome.busyRestored) ∧
    (handleTradeCard Phase.Menu [Card.mk "x" 1, Card.mk "y" 2] "A" "s1" 1
        LockAttempt.busy false []).1.Perm [Card.mk "x" 1, Card.mk "y" 2] := by
  refine ⟨(trade_failure_restores [Card.mk "y" 2] (Card.mk "x" 1) "A" "s1" "junk" false
      [] [] 1 LockAttempt.busy).2.1, ?_⟩
  exact (((trade_failure_restores [Card.mk "x" 1, Card.mk "y" 2] (Card.mk "x" 1) "A" "s1"
      "junk" false [] [] 1 LockAttempt.busy).2.2.2.2 (by decide) (by decide)).1
      (by left; decide)).1

/-! ## Dealing a hand (`game.go` `selectRandomCards`, `trade.go`
`startLocalGame`)

`selectRandomCards` copies the deck, shuffles the copy with `rand.Shuffle`
and returns its first `count` elements; when the deck is shorter than
`count` it returns nil before shuffling.  The shuffle result is passed
here as the `shuffled` parameter, a permutation of the deck. -/

/-- `selectRandomCards(deck, count)`; `shuffled` is the shuffled copy. -/
def selectRandomCards (deck shuffled : List Card) (count : Nat) : Option (List Card) :=
  if deck.length < count then none
  else some (shuffled.take count)

/-- The local player fields `startLocalGame` reads and writes. -/
structure LocalPlayer where
  name : String
  deck : List Card
  phase : Phase
deriving DecidableEq, Repr

/-- The effects of `startLocalGame` on its local player: deal a hand of 2
with `selectRandomCards`; if the deck is too small, send an error and leave
the player untouched; otherwise store the hand in the session, mark the
player `InGame` and send `MATCH_FOUND`, `MATCH_START|…`, `TIMER|10`.  The
deck is never written. -/
def startLocalGame (p : LocalPlayer) (shuffled : List Card) :
    LocalPlayer × Option (List Card) × List String :=
  match selectRandomCards p.deck shuffled 2 with
  | none => (p, none, ["Erro: Você não tem cartas suficientes (mínimo 2)."])
  | some handCards =>
    let handStr :=
      match handCards with
      | c1 :: c2 :: _ => "MATCH_START|" ++ c1.name ++ " (" ++ toString c1.forca ++ ")|"
          ++ c2.name ++ " (" ++ toString c2.forca ++ ")"
      | _ => "MATCH_START|"
    ({ p with phase := Phase.InGame }, some handCards,
      ["MATCH_FOUND", handStr, "TIMER|10"])

/-- Claim C10: dealing a hand never modifies the player's deck.
`selectRandomCards` shuffles a copy (here: any permutation `shuffled` of
the deck) and returns 2 of its elements, or `none` when the deck has fewer
than 2 cards; `startLocalGame` leaves the local player's deck sequence
exactly as it was (and, on a too-small deck, the whole player), and the
two dealt cards are members of the deck. -/
theorem deal_preserves_deck (p : LocalPlayer) (shuffled : List Card)
    (hperm : shuffled.Perm p.deck) :
    ((startLocalGame p shuffled).1.deck = p.deck) ∧
    (p.deck.length < 2 → selectRandomCards p.deck shuffled 2 = none ∧
      (startLocalGame p shuffled).1 = p) ∧
    (2 ≤ p.deck.length → ∃ hand, (startLocalGame p shuffled).2.1 = some hand ∧
      hand.length = 2 ∧ ∀ c ∈ hand, c ∈ p.deck) := by
  by_cases hlen : p.deck.length < 2
  · have hsel : selectRandomCards p.deck shuffled 2 = none := by
      simp [selectRandomCards, hlen]
    refine ⟨by simp [startLocalGame, hsel], fun _ => ⟨hsel, by simp [startLocalGame, hsel]⟩,
      fun hge => absurd hge (by omega)⟩
  · have hge : 2 ≤ p.deck.length := not_lt.mp hlen
    have hsel : selectRandomCards p.deck shuffled 2 = some (shuffled.take 2) := by
      simp [selectRandomCards, hlen]
    refine ⟨by simp [startLocalGame, hsel], fun hlt => absurd hlt (by omega), fun _ => ?_⟩
    refine ⟨shuffled.take 2, by simp [startLocalGame, hsel], ?_, ?_⟩
    · have hshuf : shuffled.length = p.deck.length := hperm.length_eq
      simp [List.length_take]
      omega
    · intro c hc
      exact hperm.subset (List.mem_of_mem_take hc)

/-- Witness for `deal_preserves_deck`: a 3-card deck with a concrete
shuffle. -/
theorem deal_preserves_deck_witness :
    (startLocalGame ⟨"A", [Card.mk "x" 1, Card.mk "y" 2, Card.mk "z" 3], Phase.Menu⟩
        [Card.mk "z" 3, Card.mk "x" 1, Card.mk "y" 2]).1.deck
      = [Card.mk "x" 1, Card.mk "y" 2, Card.mk "z" 3] ∧
    (∃ hand, (startLocalGame ⟨"A", [Card.mk "x" 1, Card.mk "y" 2, Card.mk "z" 3], Phase.Menu⟩
        [Card.mk "z" 3, Card.mk "x" 1, Card.mk "y" 2]).2.1 = some hand ∧
      hand.length = 2 ∧
      ∀ c ∈ hand, c ∈ [Card.mk "x" 1, Card.mk "y" 2, Card.mk "z" 3]) := by
  refine ⟨(deal_preserves_deck ⟨"A", [Card.mk "x" 1, Card.mk "y" 2, Card.mk "z" 3],
      Phase.Menu⟩ [Card.mk "z" 3, Card.mk "x" 1, Card.mk "y" 2] (by decide)).1, ?_⟩
  exact (deal_preserves_deck ⟨"A", [Card.mk "x" 1, Card.mk "y" 2, Card.mk "z" 3],
    Phase.Menu⟩ [Card.mk "z" 3, Card.mk "x" 1, Card.mk "y" 2] (by decide)).2.2 (by decide)

end CardDuel
